import Mathlib

/-!
# DNS-Client message codec: a shallow embedding

A Lean model of the DNS message codec in `src/structs` (`mod.rs`,
`header.rs`, `question.rs`, `answer.rs`, `message.rs`).

Conventions of the embedding:
* Rust byte slices become `List Nat` (each element a byte value).
* Rust `String`s become `List Nat` of Unicode code points; `str::as_bytes`
  is modelled by an explicit UTF-8 encoder and `u8 as char` is the
  identity on the numeric value.
* `bytes::Buf::get_u8/get_u16/get_u32` panic when the buffer is exhausted;
  panics (including `assert_eq!` failures and slice-range panics) are an
  explicit outcome `Outcome.panicked`.
* The `Rc<RefCell<Node>>` graph of `read_label` becomes an explicit store
  of nodes indexed by allocation order; `RefCell` mutation becomes
  `List.set` on the store.  `Node::get_full_label`, which diverges on a
  cyclic graph, is run with fuel `store.length + 1`: a fuel-out is
  reported as `Outcome.diverge` (a chain that never repeats a node visits
  at most `store.length` nodes, so exhausting that fuel means a node was
  revisited, and the deterministic `next` links then loop forever).
* The `read_label` loop itself always terminates in Rust (each iteration
  consumes at least one byte); it is given fuel `buf.length + 1`, which
  `readLabelLoop_no_fuelOut` below proves is never exhausted.
-/

namespace DnsClient

/-- Failure kinds of `bytes::Buf` panics, `assert_eq!` panics and the
slice-range panic in `Message::from_bytes`. -/
inductive PanicKind where
  | underflow   -- `get_u8`/`get_u16`/`get_u32` on an exhausted buffer
  | assertA     -- `assert_eq!(v.len(), 4, "Invalid A record length")`
  | assertAAAA  -- `assert_eq!(v.len(), 16, "Invalid AAAA record length")`
  | sliceRange  -- `&buf[..len]` with `len > buf.len()`
  deriving DecidableEq, Repr

/-- The two messages carried by `ParseLabelError` in `read_label`. -/
inductive LabelErrKind where
  | noEntry  -- "No entry on nodes": compression pointer to an unregistered offset
  | noHead   -- "No head detected": no label and no pointer before the terminator
  deriving DecidableEq, Repr

/-- The error types of the crate (`ParseLabelError`, `ParseQTypeError`,
`ParseQClassError`), erased to their kind. -/
inductive DnsErr where
  | labelErr : LabelErrKind → DnsErr
  | qtypeErr   -- `ParseQTypeError` (unknown mnemonic or wire code)
  | qclassErr  -- `ParseQClassError` (unknown mnemonic or wire code)
  deriving DecidableEq, Repr

/-- Outcome of running a piece of the Rust code: a value, an `Err`, a
panic, divergence, or loop-fuel exhaustion (proved unreachable for the
canonical fuel). -/
inductive Outcome (α : Type) where
  | ok : α → Outcome α
  | err : DnsErr → Outcome α
  | panicked : PanicKind → Outcome α
  | diverge : Outcome α
  | fuelOut : Outcome α
  deriving DecidableEq, Repr

namespace Outcome

def bind {α β : Type} : Outcome α → (α → Outcome β) → Outcome β
  | ok a, f => f a
  | err e, _ => err e
  | panicked p, _ => panicked p
  | diverge, _ => diverge
  | fuelOut, _ => fuelOut

instance : Monad Outcome where
  pure := ok
  bind := bind

end Outcome

open Outcome

/-- `write_u16`: append the big-endian bytes of a `u16`. -/
def write_u16 (v : Nat) : List Nat := [v / 256 % 256, v % 256]

/-- `bytes::Buf::get_u8`: consume one byte, panicking when exhausted. -/
def get_u8 : List Nat → Outcome (Nat × List Nat)
  | [] => .panicked .underflow
  | b :: rest => .ok (b, rest)

/-- `bytes::Buf::get_u16`: consume two bytes big-endian, panicking when
fewer remain. -/
def get_u16 : List Nat → Outcome (Nat × List Nat)
  | b0 :: b1 :: rest => .ok (b0 * 256 + b1, rest)
  | _ => .panicked .underflow

/-- `bytes::Buf::get_u32`: consume four bytes big-endian, panicking when
fewer remain. -/
def get_u32 : List Nat → Outcome (Nat × List Nat)
  | b0 :: b1 :: b2 :: b3 :: rest => .ok (((b0 * 256 + b1) * 256 + b2) * 256 + b3, rest)
  | _ => .panicked .underflow

/-- The byte-collecting loops `(0..n).map(|_| buf.get_u8())`: read `n`
bytes, `none` when the buffer runs out (a `get_u8` panic). -/
def readBytes : Nat → List Nat → Option (List Nat × List Nat)
  | 0, buf => some ([], buf)
  | _ + 1, [] => none
  | n + 1, b :: rest =>
      match readBytes n rest with
      | some (v, r) => some (b :: v, r)
      | none => none

/-- One node of the `Rc<RefCell<Node>>` graph built by `read_label`:
a label plus an optional `next` link (the link is a store index). -/
structure Node where
  label : List Nat
  next : Option Nat
  deriving DecidableEq, Repr

/-- The decoding state: the node store (allocation order) and the
`HashMap<usize, RefNode>` from message offsets to nodes, as an
association list where an insert prepends. -/
structure LState where
  store : List Node
  nodes : List (Nat × Nat)
  deriving DecidableEq, Repr

/-- `HashMap::get` on the offset map (most recent insert wins). -/
def lookupNode : List (Nat × Nat) → Nat → Option Nat
  | [], _ => none
  | (k, v) :: rest, o => if k = o then some v else lookupNode rest o

/-- `p.borrow_mut().next = Some(node)`: point node `p`'s link at `nid`. -/
def setNext (store : List Node) (p : Nat) (nid : Nat) : List Node :=
  match store[p]? with
  | none => store
  | some nd => store.set p ⟨nd.label, some nid⟩

/-- `Node::get_full_label`, with fuel: the label, a dot, then the rest
of the chain.  `none` means the fuel ran out (or a dangling store index,
which never occurs for states built by the decoder). -/
def get_full_label : Nat → List Node → Nat → Option (List Nat)
  | 0, _, _ => none
  | fuel + 1, store, i =>
      match store[i]? with
      | none => none
      | some nd =>
          match nd.next with
          | none => some (nd.label ++ [46])
          | some j =>
              match get_full_label fuel store j with
              | some s => some (nd.label ++ [46] ++ s)
              | none => none

/-- The `loop` of `read_label`.  Arguments mirror the Rust locals:
the remaining buffer, the absolute offset `index`, the state, and the
`head`/`prev` node references.  Returns `head`, the state and the
remaining buffer.  Fuel decreases once per iteration. -/
def readLabelLoop : Nat → List Nat → Nat → LState → Option Nat → Option Nat →
    Outcome (Option Nat × LState × List Nat)
  | _, [], _, _, _, _ => .panicked .underflow
  | 0, _ :: _, _, _, _, _ => .fuelOut
  | fuel + 1, octet :: rest, index, st, head, prev =>
      if octet &&& 0xC0 = 0xC0 then
        match rest with
        | [] => .panicked .underflow
        | lower :: rest2 =>
            let offset := (octet &&& 0x3F) * 256 + lower
            match lookupNode st.nodes offset with
            | some nid =>
                let st' : LState :=
                  match prev with
                  | some p => ⟨setNext st.store p nid, st.nodes⟩
                  | none => st
                let head' := if head.isNone then some nid else head
                .ok (head', st', rest2)
            | none => .err (.labelErr .noEntry)
      else
        let len := octet &&& 0x3F
        if len = 0 then
          .ok (head, st, rest)
        else
          match readBytes len rest with
          | none => .panicked .underflow
          | some (label, rest2) =>
              let id := st.store.length
              let store1 := st.store ++ [⟨label, none⟩]
              let nodes1 := (index, id) :: st.nodes
              let head' := if head.isNone then some id else head
              let store2 :=
                match prev with
                | some p => setNext store1 p id
                | none => store1
              readLabelLoop fuel rest2 (index + 1 + len) ⟨store2, nodes1⟩ head' (some id)

/-- `read_label`: run the loop, fail with "No head detected" when no
node was reached, otherwise resolve the head's full label. -/
def read_label (buf : List Nat) (index : Nat) (st : LState) :
    Outcome (List Nat × LState × List Nat) :=
  match readLabelLoop (buf.length + 1) buf index st none none with
  | .ok (none, _, _) => .err (.labelErr .noHead)
  | .ok (some h, st1, rest) =>
      match get_full_label (st1.store.length + 1) st1.store h with
      | some s => .ok (s, st1, rest)
      | none => .diverge
  | .err e => .err e
  | .panicked p => .panicked p
  | .diverge => .diverge
  | .fuelOut => .fuelOut

/-- `str::split('.')`: chunks between dots, empty chunks included. -/
def splitDot : List Nat → List (List Nat)
  | [] => [[]]
  | c :: rest =>
      if c = 46 then [] :: splitDot rest
      else
        match splitDot rest with
        | [] => [[c]]
        | l :: ls => (c :: l) :: ls

/-- `char::is_whitespace` (the Unicode `White_Space` code points). -/
def isWhitespace (c : Nat) : Bool :=
  c ∈ [9, 10, 11, 12, 13, 32, 133, 160, 5760, 8192, 8193, 8194, 8195, 8196,
       8197, 8198, 8199, 8200, 8201, 8202, 8232, 8233, 8239, 8287, 12288]

/-- `str::trim`: strip leading and trailing whitespace code points. -/
def trimStr (s : List Nat) : List Nat :=
  ((s.dropWhile isWhitespace).reverse.dropWhile isWhitespace).reverse

/-- UTF-8 encoding of one code point (`str::as_bytes` per char). -/
def utf8Char (c : Nat) : List Nat :=
  if c < 0x80 then [c]
  else if c < 0x800 then [0xC0 + c / 64, 0x80 + c % 64]
  else if c < 0x10000 then [0xE0 + c / 4096, 0x80 + c / 64 % 64, 0x80 + c % 64]
  else [0xF0 + c / 262144, 0x80 + c / 4096 % 64, 0x80 + c / 64 % 64, 0x80 + c % 64]

/-- `str::as_bytes`: the UTF-8 bytes of a string of code points. -/
def strBytes (s : List Nat) : List Nat := (s.map utf8Char).flatten

/-- `str::len`: the byte length of a string. -/
def strLen (s : List Nat) : Nat := (strBytes s).length

/-- The `QType` enum of `question.rs`. -/
inductive QType where
  | A | NS | CNAME | MX | TXT | AAAA
  deriving DecidableEq, Repr

namespace QType

/-- `QType as u16` (the `#[repr(u16)]` discriminants). -/
def toU16 : QType → Nat
  | A => 1
  | NS => 2
  | CNAME => 5
  | MX => 15
  | TXT => 16
  | AAAA => 28

/-- `<QType as FromStr>::from_str` on the mnemonic's code points. -/
def fromStr (s : List Nat) : Outcome QType :=
  if s = [65] then .ok A                     -- "A"
  else if s = [78, 83] then .ok NS           -- "NS"
  else if s = [67, 78, 65, 77, 69] then .ok CNAME
  else if s = [77, 88] then .ok MX
  else if s = [84, 88, 84] then .ok TXT
  else if s = [65, 65, 65, 65] then .ok AAAA
  else .err .qtypeErr

/-- `QType::from_u16`. -/
def from_u16 (value : Nat) : Outcome QType :=
  if value = 1 then .ok A
  else if value = 2 then .ok NS
  else if value = 5 then .ok CNAME
  else if value = 15 then .ok MX
  else if value = 16 then .ok TXT
  else if value = 28 then .ok AAAA
  else .err .qtypeErr

/-- `QType::to_bytes`. -/
def to_bytes (t : QType) : List Nat := write_u16 t.toU16

end QType

/-- The `QClass` enum of `question.rs`. -/
inductive QClass where
  | IN | CS | CH | HS | ANY
  deriving DecidableEq, Repr

namespace QClass

/-- `QClass as u16`. -/
def toU16 : QClass → Nat
  | IN => 1
  | CS => 2
  | CH => 3
  | HS => 4
  | ANY => 255

/-- `<QClass as FromStr>::from_str` on the mnemonic's code points. -/
def fromStr (s : List Nat) : Outcome QClass :=
  if s = [73, 78] then .ok IN                -- "IN"
  else if s = [67, 83] then .ok CS           -- "CS"
  else if s = [67, 72] then .ok CH           -- "CH"
  else if s = [72, 83] then .ok HS           -- "HS"
  else if s = [65, 78, 89] then .ok ANY      -- "ANY"
  else .err .qclassErr

/-- `QClass::from_u16`. -/
def from_u16 (value : Nat) : Outcome QClass :=
  if value = 1 then .ok IN
  else if value = 2 then .ok CS
  else if value = 3 then .ok CH
  else if value = 4 then .ok HS
  else if value = 255 then .ok ANY
  else .err .qclassErr

/-- `QClass::to_bytes`. -/
def to_bytes (c : QClass) : List Nat := write_u16 c.toU16

end QClass

/-- The `Header` struct of `header.rs`. -/
structure Header where
  id : Nat
  flags : Nat
  qdcount : Nat
  ancount : Nat
  nscount : Nat
  arcount : Nat
  deriving DecidableEq, Repr

namespace Header

/-- `Header::create_query_header`; the random id is the parameter. -/
def create_query_header (id : Nat) : Header :=
  { id := id
    flags := 1 <<< 8  -- RD (recursion desired)
    qdcount := 1      -- 1 question
    ancount := 0
    nscount := 0
    arcount := 0 }

/-- `Header::to_bytes`. -/
def to_bytes (h : Header) : List Nat :=
  write_u16 h.id ++ write_u16 h.flags ++ write_u16 h.qdcount ++
    write_u16 h.ancount ++ write_u16 h.nscount ++ write_u16 h.arcount

/-- `Header::from_bytes`: six `get_u16` reads, no validation. -/
def from_bytes (buf : List Nat) : Outcome (Header × List Nat) :=
  get_u16 buf >>= fun (id, b1) =>
  get_u16 b1 >>= fun (flags, b2) =>
  get_u16 b2 >>= fun (qdcount, b3) =>
  get_u16 b3 >>= fun (ancount, b4) =>
  get_u16 b4 >>= fun (nscount, b5) =>
  get_u16 b5 >>= fun (arcount, b6) =>
  .ok (⟨id, flags, qdcount, ancount, nscount, arcount⟩, b6)

end Header

/-- The `Question` struct of `question.rs`. -/
structure Question where
  qname : List Nat
  qtype : QType
  qclass : QClass
  deriving DecidableEq, Repr

namespace Question

/-- `Question::create_query_question`. -/
def create_query_question (domain typ cls : List Nat) : Outcome Question :=
  QType.fromStr typ >>= fun qtype =>
  QClass.fromStr cls >>= fun qclass =>
  .ok { qname := trimStr domain, qtype := qtype, qclass := qclass }

/-- `Question::to_bytes`: length-prefixed labels (length is the byte
length as `u8`), a zero terminator, then the type and class codes. -/
def to_bytes (q : Question) : List Nat :=
  ((splitDot q.qname).map (fun label => strLen label % 256 :: strBytes label)).flatten
    ++ [0] ++ q.qtype.to_bytes ++ q.qclass.to_bytes

/-- `Question::from_bytes`. -/
def from_bytes (buf : List Nat) (len : Nat) (st : LState) :
    Outcome (Question × LState × List Nat) :=
  let index := len - buf.length
  read_label buf index st >>= fun (qname, st1, r1) =>
  get_u16 r1 >>= fun (t, r2) =>
  QType.from_u16 t >>= fun qtype =>
  get_u16 r2 >>= fun (c, r3) =>
  QClass.from_u16 c >>= fun qclass =>
  .ok (⟨qname, qtype, qclass⟩, st1, r3)

end Question

/-- The `RDATA` enum of `answer.rs`. -/
inductive RDATA where
  | domainName : List Nat → RDATA            -- CNAME, NS, PTR
  | ipv4 : List Nat → RDATA                  -- A ([u8; 4])
  | ipv6 : List Nat → RDATA                  -- AAAA ([u8; 16])
  | txt : List Nat → RDATA                   -- TXT
  | mx : Nat → List Nat → RDATA              -- MX
  | soa : List Nat → List Nat → Nat → Nat → Nat → Nat → Nat → RDATA
  deriving DecidableEq, Repr

/-- The `Answer` struct of `answer.rs`. -/
structure Answer where
  name : List Nat
  rtype : QType
  cls : QClass
  ttl : Nat
  rdlength : Nat
  rdata : RDATA
  deriving DecidableEq, Repr

namespace Answer

/-- The `match rtype` block of `Answer::from_bytes` that decodes the
RDATA, given the already-read type and rdlength.  `answer.rs` also
names a `QType::SOA` arm, but the `QType` enum in `question.rs` has no
`SOA` variant and `QType::from_u16` maps no wire code to one, so that
arm is unreachable and the embedding has no case for it. -/
def rdata_from_bytes (rtype : QType) (rdlength : Nat) (buf : List Nat)
    (len : Nat) (st : LState) : Outcome (RDATA × LState × List Nat) :=
  match rtype with
  | .A =>
      match readBytes rdlength buf with
      | none => .panicked .underflow
      | some (v, r) =>
          if v.length = 4 then .ok (.ipv4 v, st, r) else .panicked .assertA
  | .AAAA =>
      match readBytes rdlength buf with
      | none => .panicked .underflow
      | some (v, r) =>
          if v.length = 16 then .ok (.ipv6 v, st, r) else .panicked .assertAAAA
  | .TXT =>
      get_u8 buf >>= fun (n, r1) =>
      match readBytes n r1 with
      | none => .panicked .underflow
      | some (v, r2) => .ok (.txt v, st, r2)
  | .CNAME | .NS =>
      let index := len - buf.length
      read_label buf index st >>= fun (name, st1, r1) =>
      .ok (.domainName name, st1, r1)
  | .MX =>
      get_u16 buf >>= fun (pref, r1) =>
      let index := len - r1.length
      read_label r1 index st >>= fun (name, st1, r2) =>
      .ok (.mx pref name, st1, r2)

/-- `Answer::from_bytes`. -/
def from_bytes (buf : List Nat) (len : Nat) (st : LState) :
    Outcome (Answer × LState × List Nat) :=
  let index := len - buf.length
  read_label buf index st >>= fun (qname, st1, r1) =>
  get_u16 r1 >>= fun (t, r2) =>
  QType.from_u16 t >>= fun rtype =>
  get_u16 r2 >>= fun (c, r3) =>
  QClass.from_u16 c >>= fun cls =>
  get_u32 r3 >>= fun (ttl, r4) =>
  get_u16 r4 >>= fun (rdlength, r5) =>
  rdata_from_bytes rtype rdlength r5 len st1 >>= fun (rdata, st2, r6) =>
  .ok (⟨qname, rtype, cls, ttl, rdlength, rdata⟩, st2, r6)

end Answer

/-- The `Message` struct of `message.rs`. -/
structure Message where
  header : Header
  question : List Question
  answer : List Answer
  authority : List Answer
  additional : List Answer
  deriving DecidableEq, Repr

/-- The `(0..count).map(|_| X::from_bytes(..)).collect::<Result<Vec<_>,_>>()`
pattern: decode `n` section elements in sequence, sharing the state. -/
def decodeN {α : Type} (f : List Nat → Nat → LState → Outcome (α × LState × List Nat)) :
    Nat → Nat → LState → List Nat → Outcome (List α × LState × List Nat)
  | 0, _, st, buf => .ok ([], st, buf)
  | n + 1, len, st, buf =>
      f buf len st >>= fun (a, st1, b1) =>
      decodeN f n len st1 b1 >>= fun (tl, st2, b2) =>
      .ok (a :: tl, st2, b2)

namespace Message

/-- `Message::create_query`; the header's random id is the parameter. -/
def create_query (id : Nat) (domain qtype qclass : List Nat) : Outcome Message :=
  Question.create_query_question domain qtype qclass >>= fun q =>
  .ok { header := Header.create_query_header id
        question := [q]
        answer := []
        authority := []
        additional := [] }

/-- `Message::to_bytes`: the header then each question, in order. -/
def to_bytes (m : Message) : List Nat :=
  m.header.to_bytes ++ (m.question.map Question.to_bytes).flatten

/-- `Message::from_bytes(buf, len)`: slice to `len` (a range panic when
`len > buf.len()`), decode the header, then exactly `qdcount` questions,
`ancount` answers, `nscount` authority and `arcount` additional records,
sharing one compression state. -/
def from_bytes (buf : List Nat) (len : Nat) : Outcome Message :=
  if len ≤ buf.length then
    let p := buf.take len
    Header.from_bytes p >>= fun (header, r1) =>
    decodeN Question.from_bytes header.qdcount len ⟨[], []⟩ r1 >>= fun (question, st1, r2) =>
    decodeN Answer.from_bytes header.ancount len st1 r2 >>= fun (answer, st2, r3) =>
    decodeN Answer.from_bytes header.nscount len st2 r3 >>= fun (authority, st3, r4) =>
    decodeN Answer.from_bytes header.arcount len st3 r4 >>= fun (additional, _, _) =>
    .ok { header := header
          question := question
          answer := answer
          authority := authority
          additional := additional }
  else .panicked .sliceRange

end Message

/-- The wire encoding of a list of labels as `Question::to_bytes` writes
an all-ASCII name: each label prefixed by its length. -/
def encLabels (L : List (List Nat)) : List Nat :=
  (L.map (fun l => l.length :: l)).flatten

/-- Labels joined with a dot after each one — the shape
`Node::get_full_label` produces. -/
def dotJoined (L : List (List Nat)) : List Nat :=
  (L.map (fun l => l ++ [46])).flatten

/-- The node chain `read_label` builds while reading the labels `L`
with no compression pointer: node `i` holds label `i` and links to node
`i + 1`. -/
def chainP (L : List (List Nat)) : List Node :=
  List.ofFn fun i : Fin L.length =>
    ⟨L.get i, if i.1 + 1 < L.length then some (i.1 + 1) else none⟩

/-- Zero out the decoded header's id and flags, the fields a response
validator would have to inspect; used to state that message decoding is
insensitive to the id and flag bytes. -/
def maskHdr : Outcome Message → Outcome Message
  | .ok m => .ok { m with header := { m.header with id := 0, flags := 0 } }
  | o => o

/-!
## Helper lemmas
-/

theorem Outcome.bind_ok {α β : Type} (a : α) (f : α → Outcome β) :
    Outcome.bind (.ok a) f = f a := rfl

theorem Outcome.bind_err {α β : Type} (e : DnsErr) (f : α → Outcome β) :
    Outcome.bind (.err e) f = .err e := rfl

theorem Outcome.bind_panicked {α β : Type} (p : PanicKind) (f : α → Outcome β) :
    Outcome.bind (.panicked p) f = .panicked p := rfl

theorem Outcome.monad_bind_eq {α β : Type} (x : Outcome α) (f : α → Outcome β) :
    x >>= f = Outcome.bind x f := rfl

attribute [simp] Outcome.bind_ok Outcome.bind_err Outcome.bind_panicked Outcome.monad_bind_eq

theorem readBytes_append (v rest : List Nat) :
    readBytes v.length (v ++ rest) = some (v, rest) := by
  induction v with
  | nil => rfl
  | cons b tl ih => simp [readBytes, ih]

theorem readBytes_some_length {n : Nat} {buf v r : List Nat}
    (h : readBytes n buf = some (v, r)) :
    v.length = n ∧ r.length + n = buf.length := by
  induction n generalizing buf v r with
  | zero => simp [readBytes] at h; simp [h.1, h.2]
  | succ n ih =>
    match buf with
    | [] => simp [readBytes] at h
    | b :: rest =>
      simp only [readBytes] at h
      cases hrb : readBytes n rest with
      | none => rw [hrb] at h; simp at h
      | some p =>
        obtain ⟨v', r'⟩ := p
        rw [hrb] at h
        simp at h
        obtain ⟨hv, hr⟩ := h
        subst hv hr
        obtain ⟨h1, h2⟩ := ih hrb
        simp [h1]
        omega

/-- The loop's fuel `buf.length + 1` is never exhausted: every label
iteration consumes at least one byte of the buffer. -/
theorem readLabelLoop_no_fuelOut :
    ∀ (fuel : Nat) (buf : List Nat) (index : Nat) (st : LState)
      (head prev : Option Nat), buf.length ≤ fuel →
      readLabelLoop fuel buf index st head prev ≠ .fuelOut := by
  intro fuel
  induction fuel with
  | zero =>
    intro buf index st head prev h
    interval_cases hb : buf.length
    · match buf, hb with
      | [], _ => simp [readLabelLoop]
  | succ fuel ih =>
    intro buf index st head prev h
    match buf with
    | [] => simp [readLabelLoop]
    | octet :: rest =>
      simp only [readLabelLoop]
      split
      · match rest with
        | [] => simp
        | lower :: rest2 =>
          rcases hl : lookupNode st.nodes ((octet &&& 0x3F) * 256 + lower) with _ | nid <;>
            simp [hl]
      · split
        · simp
        · cases hrb : readBytes (octet &&& 0x3F) rest with
          | none => simp
          | some p =>
            obtain ⟨label, rest2⟩ := p
            simp only
            apply ih
            have := (readBytes_some_length hrb).2
            simp at h
            omega

/-- A byte that is at most 63 has neither of its two top bits set. -/
theorem land192_of_le63 {n : Nat} (h : n ≤ 63) : n &&& 192 = 0 := by
  interval_cases n <;> decide

/-- Masking with the low six bits leaves a byte at most 63 unchanged. -/
theorem land63_of_le63 {n : Nat} (h : n ≤ 63) : n &&& 63 = n := by
  interval_cases n <;> decide

theorem splitDot_ne_nil (s : List Nat) : splitDot s ≠ [] := by
  match s with
  | [] => simp [splitDot]
  | c :: rest =>
    simp only [splitDot]
    split
    · simp
    · cases splitDot rest <;> simp

/-- Re-joining the chunks of `split('.')` with a dot after each chunk
recovers the string plus one trailing dot. -/
theorem dotJoined_splitDot (s : List Nat) : dotJoined (splitDot s) = s ++ [46] := by
  induction s with
  | nil => rfl
  | cons c rest ih =>
    simp only [splitDot]
    split
    · subst c
      simpa [dotJoined] using ih
    · cases hs : splitDot rest with
      | nil => exact absurd hs (splitDot_ne_nil rest)
      | cons l ls =>
        rw [hs] at ih
        simp only [dotJoined, List.map_cons, List.flatten_cons] at ih ⊢
        simp only [List.cons_append, List.append_assoc] at ih ⊢
        rw [ih]

/-- ASCII code points are their own UTF-8 encoding. -/
theorem strBytes_ascii {l : List Nat} (h : ∀ c ∈ l, c < 128) : strBytes l = l := by
  induction l with
  | nil => rfl
  | cons c tl ih =>
    have hc : c < 128 := h c (by simp)
    simp only [strBytes, List.map_cons, List.flatten_cons]
    rw [utf8Char, if_pos (by omega)]
    have := ih (fun x hx => h x (by simp [hx]))
    simp only [strBytes] at this
    simp [this]

theorem get_u16_write_u16 {v : Nat} (h : v < 65536) (r : List Nat) :
    get_u16 (write_u16 v ++ r) = .ok (v, r) := by
  simp only [write_u16, List.cons_append, List.nil_append, get_u16]
  have hv : v / 256 % 256 * 256 + v % 256 = v := by omega
  rw [hv]

theorem qtype_from_u16_toU16 (t : QType) : QType.from_u16 t.toU16 = .ok t := by
  cases t <;> rfl

theorem qclass_from_u16_toU16 (c : QClass) : QClass.from_u16 c.toU16 = .ok c := by
  cases c <;> rfl

theorem qtype_toU16_lt (t : QType) : t.toU16 < 256 := by cases t <;> decide

theorem qclass_toU16_lt (c : QClass) : c.toU16 < 256 := by cases c <;> decide

/-- A successful `decodeN` returns exactly `n` elements. -/
theorem decodeN_ok_length {α : Type}
    {f : List Nat → Nat → LState → Outcome (α × LState × List Nat)}
    {n len : Nat} {st st' : LState} {buf r : List Nat} {as_ : List α}
    (h : decodeN f n len st buf = .ok (as_, st', r)) : as_.length = n := by
  induction n generalizing st buf as_ st' r with
  | zero => simp [decodeN] at h; simp [h.1]
  | succ n ih =>
    simp only [decodeN, Outcome.monad_bind_eq] at h
    cases hf : f buf len st with
    | ok a =>
      obtain ⟨a0, st1, b1⟩ := a
      rw [hf] at h
      simp only [Outcome.bind_ok] at h
      cases hd : decodeN f n len st1 b1 with
      | ok b =>
        obtain ⟨tl, st2, b2⟩ := b
        rw [hd] at h
        simp only [Outcome.bind_ok] at h
        cases h
        simp [ih hd]
      | err e => rw [hd] at h; simp [Outcome.bind] at h
      | panicked p => rw [hd] at h; simp [Outcome.bind] at h
      | diverge => rw [hd] at h; simp [Outcome.bind] at h
      | fuelOut => rw [hd] at h; simp [Outcome.bind] at h
    | err e => rw [hf] at h; simp [Outcome.bind] at h
    | panicked p => rw [hf] at h; simp [Outcome.bind] at h
    | diverge => rw [hf] at h; simp [Outcome.bind] at h
    | fuelOut => rw [hf] at h; simp [Outcome.bind] at h

/-!
## The node chain built by an uncompressed name
-/

theorem chainP_length (L : List (List Nat)) : (chainP L).length = L.length := by
  simp [chainP]

theorem chainP_getElem? (L : List (List Nat)) (i : Nat) :
    (chainP L)[i]? =
      if h : i < L.length then
        some ⟨L[i], if i + 1 < L.length then some (i + 1) else none⟩
      else none := by
  rw [chainP, List.getElem?_ofFn]
  unfold List.ofFnNthVal
  split
  · simp [List.get_eq_getElem]
  · rfl

theorem chainP_singleton (l : List Nat) : chainP [l] = [⟨l, none⟩] := by
  simp [chainP, List.ofFn_succ]

theorem chainP_snoc {M : List (List Nat)} (hM : M ≠ []) (l : List Nat) :
    setNext (chainP M ++ [⟨l, none⟩]) (M.length - 1) M.length = chainP (M ++ [l]) := by
  have hMpos : 0 < M.length := List.length_pos.mpr hM
  have hlen : (chainP M).length = M.length := chainP_length M
  have hm1 : M.length - 1 < M.length := by omega
  have hp : (chainP M ++ [Node.mk l none])[M.length - 1]? =
      some ⟨M[M.length - 1], none⟩ := by
    rw [List.getElem?_append_left (by omega)]
    rw [chainP_getElem?]
    rw [dif_pos (by omega)]
    rw [if_neg (by omega)]
  unfold setNext
  rw [hp]
  apply List.ext_getElem?
  intro i
  rw [List.getElem?_set]
  rw [chainP_getElem?]
  by_cases hie : M.length - 1 = i
  · subst hie
    have ha1 : M.length - 1 < (M ++ [l]).length := by simp; omega
    rw [if_pos rfl]
    rw [if_pos (by simp; omega)]
    rw [dif_pos (by simp; omega)]
    rw [if_pos (by simp; omega)]
    have hv : (M ++ [l])[M.length - 1] = M[M.length - 1] := by
      rw [List.getElem_append_left (by omega)]
    rw [hv]
    have hsucc : M.length - 1 + 1 = M.length := by omega
    rw [hsucc]
  · rw [if_neg hie]
    by_cases hi : i < M.length
    · have ha2 : i < (M ++ [l]).length := by simp; omega
      rw [List.getElem?_append_left (by omega)]
      rw [chainP_getElem?]
      rw [dif_pos hi]
      rw [dif_pos (by simp; omega)]
      have hv : (M ++ [l])[i] = M[i] := by
        rw [List.getElem_append_left hi]
      rw [hv]
      have hlt : i + 1 < M.length := by omega
      rw [if_pos hlt, if_pos (by simp; omega)]
    · by_cases hi2 : i = M.length
      · subst hi2
        have ha3 : M.length < (M ++ [l]).length := by simp
        rw [List.getElem?_append_right (by omega)]
        rw [dif_pos (by simp)]
        have hv : (M ++ [l])[M.length] = l := by
          rw [List.getElem_append_right (by omega)]
          simp
        rw [hv]
        rw [if_neg (by simp)]
        rw [hlen]
        simp
      · rw [List.getElem?_append_right (by omega)]
        rw [dif_neg (by simp; omega)]
        have : i - (chainP M ++ [Node.mk l none]).length.pred ≠ 0 := by
          simp [hlen]
          omega
        simp only [List.length_append, hlen, List.length_singleton]
        rw [List.getElem?_eq_none (by simp; omega)]

theorem dotJoined_drop (L : List (List Nat)) (i : Nat) (hi : i < L.length) :
    dotJoined (L.drop i) = L[i] ++ [46] ++ dotJoined (L.drop (i + 1)) := by
  rw [List.drop_eq_getElem_cons hi]
  simp only [dotJoined, List.map_cons, List.flatten_cons, List.append_assoc]

/-- Resolving node `i` of the chain for `L` yields the dot-joined tail
of `L` from `i`, given fuel for the remaining chain length. -/
theorem get_full_label_chainP (L : List (List Nat)) :
    ∀ (fuel i : Nat), i < L.length → L.length - i ≤ fuel →
      get_full_label fuel (chainP L) i = some (dotJoined (L.drop i)) := by
  intro fuel
  induction fuel with
  | zero => intro i hi hf; omega
  | succ fuel ih =>
    intro i hi hf
    rw [get_full_label]
    rw [chainP_getElem?, dif_pos hi]
    simp only
    by_cases hnext : i + 1 < L.length
    · rw [if_pos hnext]
      simp only
      rw [ih (i + 1) hnext (by omega)]
      simp only
      rw [dotJoined_drop L i hi]
    · rw [if_neg hnext]
      simp only
      congr 1
      have : L.drop i = [L[i]] := by
        rw [List.drop_eq_getElem_cons hi]
        have : L.drop (i + 1) = [] := by
          apply List.drop_eq_nil_of_le
          omega
        rw [this]
      rw [this]
      simp [dotJoined]

theorem encLabels_length_le (L : List (List Nat)) : L.length ≤ (encLabels L).length := by
  induction L with
  | nil => simp [encLabels]
  | cons l tl ih =>
    simp only [encLabels, List.map_cons, List.flatten_cons, List.length_append,
      List.length_cons] at ih ⊢
    omega

/-- Running the `read_label` loop over the uncompressed encoding of the
labels `L`, with the chain for `M` already built and `prev` pointing at
its last node, extends the chain to `M ++ L` and stops at the
terminator. -/
theorem readLabelLoop_encLabels :
    ∀ (L : List (List Nat)), (∀ l ∈ L, 0 < l.length ∧ l.length ≤ 63) →
    ∀ (M : List (List Nat)), M ≠ [] →
    ∀ (suffix : List Nat) (index fuel h0 : Nat) (ns : List (Nat × Nat)),
      L.length < fuel →
      ∃ ns', readLabelLoop fuel (encLabels L ++ 0 :: suffix) index ⟨chainP M, ns⟩
          (some h0) (some (M.length - 1)) = .ok (some h0, ⟨chainP (M ++ L), ns'⟩, suffix) := by
  intro L
  induction L with
  | nil =>
    intro _ M hM suffix index fuel h0 ns hfuel
    refine ⟨ns, ?_⟩
    match fuel, hfuel with
    | f + 1, _ =>
      simp [encLabels, readLabelLoop]
  | cons l ls ih =>
    intro hL M hM suffix index fuel h0 ns hfuel
    obtain ⟨hl0, hl63⟩ := hL l (by simp)
    match fuel, hfuel with
    | f + 1, hfuel =>
      have hbuf : encLabels (l :: ls) ++ 0 :: suffix =
          l.length :: (l ++ (encLabels ls ++ 0 :: suffix)) := by
        simp [encLabels]
      rw [hbuf]
      simp only [readLabelLoop]
      rw [if_neg (by rw [land192_of_le63 hl63]; omega)]
      rw [land63_of_le63 hl63]
      rw [if_neg (by omega)]
      rw [readBytes_append l (encLabels ls ++ 0 :: suffix)]
      simp only [chainP_length, Option.isNone_some, Bool.false_eq_true, if_false,
        chainP_snoc hM l]
      obtain ⟨ns', hns'⟩ := ih (fun x hx => hL x (by simp [hx])) (M ++ [l]) (by simp)
        suffix (index + 1 + l.length) f h0 ((index, M.length) :: ns)
        (by simp at hfuel ⊢; omega)
      have hlen : (M ++ [l]).length - 1 = M.length := by simp
      rw [hlen] at hns'
      rw [hns']
      refine ⟨ns', ?_⟩
      simp

/-- `read_label` on the uncompressed encoding of nonempty labels `L`
(each of length 1–63) decodes to the labels joined with trailing dots,
builds the chain for `L`, and leaves exactly the suffix. -/
theorem read_label_encLabels (L : List (List Nat))
    (hL : ∀ l ∈ L, 0 < l.length ∧ l.length ≤ 63) (hne : L ≠ [])
    (suffix : List Nat) (index : Nat) :
    ∃ ns', read_label (encLabels L ++ 0 :: suffix) index ⟨[], []⟩ =
      .ok (dotJoined L, ⟨chainP L, ns'⟩, suffix) := by
  match L, hne with
  | l :: ls, _ =>
    obtain ⟨hl0, hl63⟩ := hL l (by simp)
    have hbuf : encLabels (l :: ls) ++ 0 :: suffix =
        l.length :: (l ++ (encLabels ls ++ 0 :: suffix)) := by
      simp [encLabels]
    rw [read_label, hbuf]
    simp only [List.length_cons]
    simp only [readLabelLoop]
    rw [if_neg (by rw [land192_of_le63 hl63]; omega)]
    rw [land63_of_le63 hl63]
    rw [if_neg (by omega)]
    rw [readBytes_append l (encLabels ls ++ 0 :: suffix)]
    simp only [List.length_nil, List.nil_append, Option.isNone_none, if_true]
    rw [show [Node.mk l none] = chainP [l] from (chainP_singleton l).symm]
    have hfuel : ls.length < (l ++ (encLabels ls ++ 0 :: suffix)).length + 1 := by
      have := encLabels_length_le ls
      simp
      omega
    obtain ⟨ns', hns'⟩ := readLabelLoop_encLabels ls
      (fun x hx => hL x (by simp [hx])) [l] (by simp) suffix
      (index + 1 + l.length) ((l ++ (encLabels ls ++ 0 :: suffix)).length + 1) 0
      [(index, 0)] hfuel
    have hlen1 : ([l] : List (List Nat)).length - 1 = 0 := by simp
    rw [hlen1] at hns'
    rw [hns']
    have hchain : ([l] : List (List Nat)) ++ ls = l :: ls := by simp
    rw [hchain]
    have hfl : get_full_label ((chainP (l :: ls)).length + 1) (chainP (l :: ls)) 0 =
        some (dotJoined (l :: ls)) := by
      have := get_full_label_chainP (l :: ls) ((chainP (l :: ls)).length + 1) 0
        (by simp) (by simp [chainP_length])
      simpa using this
    refine ⟨ns', ?_⟩
    simp [hfl]

/-- For labels that are ASCII and at most 63 bytes, `Question::to_bytes`
writes exactly the plain length-prefixed encoding. -/
theorem question_to_bytes_ascii (q : Question)
    (hlab : ∀ l ∈ splitDot q.qname, l.length ≤ 63 ∧ ∀ c ∈ l, c < 128) :
    q.to_bytes = encLabels (splitDot q.qname) ++ [0] ++
      write_u16 q.qtype.toU16 ++ write_u16 q.qclass.toU16 := by
  unfold Question.to_bytes encLabels
  have hmap : (splitDot q.qname).map (fun l => strLen l % 256 :: strBytes l) =
      (splitDot q.qname).map (fun l => l.length :: l) := by
    apply List.map_congr_left
    intro l hl
    obtain ⟨h63, hascii⟩ := hlab l hl
    have hb : strBytes l = l := strBytes_ascii hascii
    have hlen : strLen l = l.length := by rw [strLen, hb]
    rw [hb, hlen, Nat.mod_eq_of_lt (by omega)]
  rw [hmap]
  simp [QType.to_bytes, QClass.to_bytes]

theorem get_u16_write_u16_mod (v : Nat) (r : List Nat) :
    get_u16 (write_u16 v ++ r) = .ok (v % 65536, r) := by
  simp only [write_u16, List.cons_append, List.nil_append, get_u16]
  have hv : v / 256 % 256 * 256 + v % 256 = v % 65536 := by omega
  rw [hv]

/-!
## Claim C2
-/

/-- C2: serializing a query built from ("example.com", "A", "IN") yields
a 2-byte id, flag bytes 0x01 0x00 (only RD set), counts qdcount=1 and
the rest 0, the name as `7 'example' 3 'com' 0`, then QTYPE=1 and
QCLASS=1, all multi-byte integers big-endian. -/
theorem C2_query_wire_format (id : Nat) (m : Message)
    (hm : Message.create_query id [101, 120, 97, 109, 112, 108, 101, 46, 99, 111, 109]
      [65] [73, 78] = .ok m) :
    m.to_bytes = write_u16 id ++
      [1, 0, 0, 1, 0, 0, 0, 0, 0, 0,
       7, 101, 120, 97, 109, 112, 108, 101, 3, 99, 111, 109, 0, 0, 1, 0, 1] := by
  have hq : Question.create_query_question
      [101, 120, 97, 109, 112, 108, 101, 46, 99, 111, 109] [65] [73, 78] =
      .ok ⟨[101, 120, 97, 109, 112, 108, 101, 46, 99, 111, 109], .A, .IN⟩ := by decide
  rw [Message.create_query, Outcome.monad_bind_eq, hq, Outcome.bind_ok] at hm
  simp only [Outcome.ok.injEq] at hm
  subst hm
  have hqb : Question.to_bytes
      ⟨[101, 120, 97, 109, 112, 108, 101, 46, 99, 111, 109], .A, .IN⟩ =
      [7, 101, 120, 97, 109, 112, 108, 101, 3, 99, 111, 109, 0, 0, 1, 0, 1] := by decide
  simp [Message.to_bytes, Header.to_bytes, Header.create_query_header, hqb, write_u16]

/-- C2 witness at id 0x1234. -/
theorem C2_witness :
    Message.create_query 4660 [101, 120, 97, 109, 112, 108, 101, 46, 99, 111, 109]
        [65] [73, 78] =
      .ok ⟨⟨4660, 256, 1, 0, 0, 0⟩,
        [⟨[101, 120, 97, 109, 112, 108, 101, 46, 99, 111, 109], .A, .IN⟩], [], [], []⟩ ∧
    (⟨⟨4660, 256, 1, 0, 0, 0⟩,
        [⟨[101, 120, 97, 109, 112, 108, 101, 46, 99, 111, 109], .A, .IN⟩], [], [], []⟩ :
        Message).to_bytes = write_u16 4660 ++
      [1, 0, 0, 1, 0, 0, 0, 0, 0, 0,
       7, 101, 120, 97, 109, 112, 108, 101, 3, 99, 111, 109, 0, 0, 1, 0, 1] :=
  ⟨by decide, C2_query_wire_format 4660 _ (by decide)⟩

/-!
## Claim C1
-/

/-- Decoding a question whose bytes are an uncompressed ASCII name
followed by a known type and class code. -/
theorem question_from_bytes_enc (L : List (List Nat))
    (hL : ∀ l ∈ L, 0 < l.length ∧ l.length ≤ 63) (hne : L ≠ [])
    (T : QType) (C : QClass) (len : Nat) :
    ∃ ns', Question.from_bytes
        (encLabels L ++ 0 :: (write_u16 T.toU16 ++ write_u16 C.toU16)) len ⟨[], []⟩ =
      .ok (⟨dotJoined L, T, C⟩, ⟨chainP L, ns'⟩, []) := by
  obtain ⟨ns', hrl⟩ := read_label_encLabels L hL hne
    (write_u16 T.toU16 ++ write_u16 C.toU16)
    (len - (encLabels L ++ 0 :: (write_u16 T.toU16 ++ write_u16 C.toU16)).length)
  refine ⟨ns', ?_⟩
  simp only [Question.from_bytes, Outcome.monad_bind_eq]
  rw [hrl, Outcome.bind_ok]
  simp only
  rw [get_u16_write_u16_mod, Outcome.bind_ok]
  rw [Nat.mod_eq_of_lt (by have := qtype_toU16_lt T; omega)]
  rw [qtype_from_u16_toU16, Outcome.bind_ok]
  have : write_u16 C.toU16 = write_u16 C.toU16 ++ [] := by simp
  rw [this, get_u16_write_u16_mod, Outcome.bind_ok]
  rw [Nat.mod_eq_of_lt (by have := qclass_toU16_lt C; omega)]
  rw [qclass_from_u16_toU16, Outcome.bind_ok]

/-- C1 (amended): for a domain whose dot-separated labels are nonempty,
at most 63 bytes and ASCII, decoding the serialized query gives back a
message with the same flags and counts (id excluded) and the same
question, except that the decoded qname carries a trailing dot. -/
theorem C1_roundtrip_with_trailing_dot (id : Nat) (domain typ cls : List Nat) (m : Message)
    (hm : Message.create_query id domain typ cls = .ok m)
    (hlab : ∀ l ∈ splitDot (trimStr domain),
      0 < l.length ∧ l.length ≤ 63 ∧ ∀ c ∈ l, c < 128) :
    ∃ i, Message.from_bytes m.to_bytes m.to_bytes.length =
      .ok { header := { m.header with id := i }
            question := m.question.map fun q => { q with qname := q.qname ++ [46] }
            answer := [], authority := [], additional := [] } := by
  rw [Message.create_query, Outcome.monad_bind_eq, Question.create_query_question] at hm
  simp only [Outcome.monad_bind_eq] at hm
  cases hT : QType.fromStr typ with
  | ok T =>
    rw [hT, Outcome.bind_ok] at hm
    cases hC : QClass.fromStr cls with
    | ok C =>
      rw [hC, Outcome.bind_ok, Outcome.bind_ok] at hm
      simp only [Outcome.ok.injEq] at hm
      subst hm
      set L := splitDot (trimStr domain) with hLdef
      have hL : ∀ l ∈ L, 0 < l.length ∧ l.length ≤ 63 :=
        fun l hl => ⟨(hlab l hl).1, (hlab l hl).2.1⟩
      have hLne : L ≠ [] := splitDot_ne_nil _
      have hqb : Question.to_bytes ⟨trimStr domain, T, C⟩ =
          encLabels L ++ [0] ++ write_u16 T.toU16 ++ write_u16 C.toU16 :=
        question_to_bytes_ascii _ (fun l hl => ⟨(hlab l hl).2.1, (hlab l hl).2.2⟩)
      have hbytes : (Message.mk (Header.create_query_header id)
          [⟨trimStr domain, T, C⟩] [] [] []).to_bytes =
          write_u16 id ++ (write_u16 256 ++ (write_u16 1 ++ (write_u16 0 ++
            (write_u16 0 ++ (write_u16 0 ++
            (encLabels L ++ 0 :: (write_u16 T.toU16 ++ write_u16 C.toU16))))))) := by
        simp [Message.to_bytes, Header.to_bytes, Header.create_query_header, hqb,
          List.append_assoc]
      rw [hbytes]
      rw [Message.from_bytes]
      rw [if_pos (le_refl _)]
      rw [List.take_length]
      have hhdr : Header.from_bytes (write_u16 id ++ (write_u16 256 ++ (write_u16 1 ++
          (write_u16 0 ++ (write_u16 0 ++ (write_u16 0 ++
          (encLabels L ++ 0 :: (write_u16 T.toU16 ++ write_u16 C.toU16)))))))) =
          .ok (⟨id % 65536, 256, 1, 0, 0, 0⟩,
            encLabels L ++ 0 :: (write_u16 T.toU16 ++ write_u16 C.toU16)) := by
        rw [Header.from_bytes]
        simp only [Outcome.monad_bind_eq]
        rw [get_u16_write_u16_mod, Outcome.bind_ok]
        rw [get_u16_write_u16_mod, Outcome.bind_ok]
        rw [get_u16_write_u16_mod, Outcome.bind_ok]
        rw [get_u16_write_u16_mod, Outcome.bind_ok]
        rw [get_u16_write_u16_mod, Outcome.bind_ok]
        rw [get_u16_write_u16_mod, Outcome.bind_ok]
      simp only [Outcome.monad_bind_eq]
      rw [hhdr, Outcome.bind_ok]
      simp only
      obtain ⟨ns', hq1⟩ := question_from_bytes_enc L hL hLne T C
        (write_u16 id ++ (write_u16 256 ++ (write_u16 1 ++ (write_u16 0 ++
          (write_u16 0 ++ (write_u16 0 ++
          (encLabels L ++ 0 :: (write_u16 T.toU16 ++ write_u16 C.toU16)))))))).length
      rw [show (1 : Nat) = 0 + 1 from rfl, decodeN]
      simp only [Outcome.monad_bind_eq]
      rw [hq1, Outcome.bind_ok]
      simp only [decodeN, Outcome.bind_ok]
      refine ⟨id % 65536, ?_⟩
      simp only [Header.create_query_header, List.map_cons, List.map_nil]
      rw [hLdef, dotJoined_splitDot]
      rfl
    | err e => rw [hC] at hm; simp [Outcome.bind] at hm
    | panicked p => rw [hC] at hm; simp [Outcome.bind] at hm
    | diverge => rw [hC] at hm; simp [Outcome.bind] at hm
    | fuelOut => rw [hC] at hm; simp [Outcome.bind] at hm
  | err e => rw [hT] at hm; simp [Outcome.bind] at hm
  | panicked p => rw [hT] at hm; simp [Outcome.bind] at hm
  | diverge => rw [hT] at hm; simp [Outcome.bind] at hm
  | fuelOut => rw [hT] at hm; simp [Outcome.bind] at hm

/-!
## Claim C3
-/

/-- C3: a compression pointer whose 14-bit offset has no entry in the
node table makes name decoding fail with the dangling-pointer error
("No entry on nodes"), at any point of the loop and with the error
propagated by `read_label`; no name is returned. -/
theorem C3_dangling_pointer :
    (∀ (fuel octet lower index : Nat) (rest2 : List Nat) (st : LState)
      (head prev : Option Nat),
      octet &&& 0xC0 = 0xC0 →
      lookupNode st.nodes ((octet &&& 0x3F) * 256 + lower) = none →
      readLabelLoop (fuel + 1) (octet :: lower :: rest2) index st head prev =
        .err (.labelErr .noEntry)) ∧
    (∀ (buf : List Nat) (index : Nat) (st : LState) (e : DnsErr),
      readLabelLoop (buf.length + 1) buf index st none none = .err e →
      read_label buf index st = .err e) := by
  constructor
  · intro fuel octet lower index rest2 st head prev hptr hmiss
    simp only [readLabelLoop]
    rw [if_pos hptr]
    simp [hmiss]
  · intro buf index st e h
    rw [read_label, h]

/-- C3 witness: a pointer to offset 5 with an empty table. -/
theorem C3_witness :
    ((0xC0 : Nat) &&& 0xC0 = 0xC0) ∧
    lookupNode (LState.mk [] []).nodes (((0xC0 : Nat) &&& 0x3F) * 256 + 5) = none ∧
    readLabelLoop 1 [0xC0, 5] 7 ⟨[], []⟩ none none = .err (.labelErr .noEntry) ∧
    readLabelLoop ([0xC0, 5].length + 1) [0xC0, 5] 7 ⟨[], []⟩ none none =
      .err (.labelErr .noEntry) ∧
    read_label [0xC0, 5] 7 ⟨[], []⟩ = .err (.labelErr .noEntry) :=
  ⟨by decide, by decide,
   C3_dangling_pointer.1 0 0xC0 5 7 [] ⟨[], []⟩ none none (by decide) (by decide),
   by decide,
   C3_dangling_pointer.2 [0xC0, 5] 7 ⟨[], []⟩ _ (by decide)⟩

/-!
## Claim C4
-/

/-- A successful `HashMap::get` witnesses membership of the pair. -/
theorem lookupNode_mem {ns : List (Nat × Nat)} {o v : Nat}
    (h : lookupNode ns o = some v) : (o, v) ∈ ns := by
  induction ns with
  | nil => simp [lookupNode] at h
  | cons kv tl ih =>
    obtain ⟨k, w⟩ := kv
    simp only [lookupNode] at h
    by_cases hk : k = o
    · rw [if_pos hk] at h
      simp at h
      subst hk
      subst h
      simp
    · rw [if_neg hk] at h
      exact List.mem_cons_of_mem _ (ih h)

/-- C4 (amended): an accepted compression pointer always targets a
registered offset, and registered offsets stay strictly below the
current cursor (lookups beyond it fail, and new registrations happen at
or after the current offset), so accepted pointers do point strictly
backward; nevertheless decoding does not terminate on every input:
the node graph is mutable, a pointer into the name currently being
decoded closes a cycle, and `get_full_label` then diverges — refuted
concretely by the counterexample, whose cyclic store resolves to `none`
for every fuel. -/
theorem C4_backward_pointers_but_divergence :
    (∀ (fuel octet lower index : Nat) (rest2 : List Nat) (st : LState)
      (head prev : Option Nat),
      octet &&& 0xC0 = 0xC0 →
      (∀ kv ∈ st.nodes, kv.1 < index) →
      readLabelLoop (fuel + 1) (octet :: lower :: rest2) index st head prev ≠
        .err (.labelErr .noEntry) →
      (octet &&& 0x3F) * 256 + lower < index) ∧
    (∀ (fuel : Nat) (buf : List Nat) (index : Nat) (st : LState)
      (head prev : Option Nat) (head' : Option Nat) (st' : LState) (rest : List Nat),
      readLabelLoop fuel buf index st head prev = .ok (head', st', rest) →
      ∀ kv ∈ st'.nodes, kv ∈ st.nodes ∨ index ≤ kv.1) ∧
    (∀ fuel : Nat,
      get_full_label fuel [⟨[102, 111, 111], some 0⟩] 0 = none) := by
  refine ⟨?_, ?_, ?_⟩
  · intro fuel octet lower index rest2 st head prev hptr hkeys hne
    by_cases hl : lookupNode st.nodes ((octet &&& 0x3F) * 256 + lower) = none
    · exfalso
      apply hne
      simp only [readLabelLoop]
      rw [if_pos hptr]
      simp [hl]
    · rcases ho : lookupNode st.nodes ((octet &&& 0x3F) * 256 + lower) with _ | nid
      · exact absurd ho hl
      · exact hkeys _ (lookupNode_mem ho)
  · intro fuel
    induction fuel with
    | zero =>
      intro buf index st head prev head' st' rest h
      match buf with
      | [] => simp [readLabelLoop] at h
      | b :: bs => simp [readLabelLoop] at h
    | succ fuel ih =>
      intro buf index st head prev head' st' rest h
      match buf with
      | [] => simp [readLabelLoop] at h
      | octet :: bs =>
        by_cases hflag : octet &&& 0xC0 = 0xC0
        · match bs with
          | [] => simp [readLabelLoop, hflag] at h
          | lower :: rest2 =>
            rcases hl : lookupNode st.nodes ((octet &&& 0x3F) * 256 + lower) with _ | nid
            · simp [readLabelLoop, hflag, hl] at h
            · intro kv hkv
              left
              cases prev with
              | none =>
                simp [readLabelLoop, hflag, hl] at h
                obtain ⟨-, h2, -⟩ := h
                subst h2
                exact hkv
              | some p =>
                simp [readLabelLoop, hflag, hl] at h
                obtain ⟨-, h2, -⟩ := h
                subst h2
                exact hkv
        · by_cases hlen : octet &&& 0x3F = 0
          · simp [readLabelLoop, hflag, hlen] at h
            obtain ⟨-, h2, -⟩ := h
            subst h2
            intro kv hkv
            left
            exact hkv
          · cases hrb : readBytes (octet &&& 0x3F) bs with
            | none => simp [readLabelLoop, hflag, hlen, hrb] at h
            | some p2 =>
              obtain ⟨label, rest2⟩ := p2
              simp only [readLabelLoop, hrb, if_neg hflag, if_neg hlen] at h
              intro kv hkv
              rcases ih _ _ _ _ _ _ _ _ h kv hkv with hmem | hge
              · rcases List.mem_cons.mp hmem with heq | hmem'
                · right
                  rw [heq]
                · left
                  exact hmem'
              · right
                omega
  · intro fuel
    induction fuel with
    | zero => rfl
    | succ fuel ih => simp [get_full_label, ih]

/-- C4 counterexample: a name "foo" followed by a pointer to its own
starting offset 12 — the accepted pointer targets offset 12 < 16, yet
the node graph becomes cyclic and decoding diverges instead of
terminating. -/
theorem C4_counterexample :
    read_label [3, 102, 111, 111, 0xC0, 12] 12 ⟨[], []⟩ = .diverge := by decide

/-- C4 witness: a pointer to registered offset 5 read at offset 12. -/
theorem C4_witness :
    ((0xC0 : Nat) &&& 0xC0 = 0xC0) ∧
    (∀ kv ∈ (LState.mk [⟨[97], none⟩] [(5, 0)]).nodes, kv.1 < 12) ∧
    readLabelLoop 1 [0xC0, 5] 12 ⟨[⟨[97], none⟩], [(5, 0)]⟩ none none ≠
      .err (.labelErr .noEntry) ∧
    ((0xC0 : Nat) &&& 0x3F) * 256 + 5 < 12 ∧
    readLabelLoop 2 [3, 98, 97, 114, 0] 20 ⟨[], []⟩ none none =
      .ok (some 0, ⟨[⟨[98, 97, 114], none⟩], [(20, 0)]⟩, []) ∧
    (∀ kv ∈ (LState.mk [⟨[98, 97, 114], none⟩] [(20, 0)]).nodes,
      kv ∈ (LState.mk [] []).nodes ∨ 20 ≤ kv.1) :=
  ⟨by decide, by decide, by decide,
   C4_backward_pointers_but_divergence.1 0 0xC0 5 12 [] ⟨[⟨[97], none⟩], [(5, 0)]⟩
     none none (by decide) (by decide) (by decide),
   by decide,
   C4_backward_pointers_but_divergence.2.1 2 [3, 98, 97, 114, 0] 20 ⟨[], []⟩
     none none (some 0) ⟨[⟨[98, 97, 114], none⟩], [(20, 0)]⟩ [] (by decide)⟩

/-- C1 counterexample: for ("example.com", "A", "IN") the decoded
question's qname is "example.com." — the trailing dot added by
`get_full_label` makes it differ from the original qname, so the
decoded question does not equal the original. -/
theorem C1_counterexample :
    Message.create_query 0 [101, 120, 97, 109, 112, 108, 101, 46, 99, 111, 109]
        [65] [73, 78] =
      .ok ⟨⟨0, 256, 1, 0, 0, 0⟩,
        [⟨[101, 120, 97, 109, 112, 108, 101, 46, 99, 111, 109], .A, .IN⟩], [], [], []⟩ ∧
    Message.from_bytes
        (Message.mk ⟨0, 256, 1, 0, 0, 0⟩
          [⟨[101, 120, 97, 109, 112, 108, 101, 46, 99, 111, 109], .A, .IN⟩] [] [] []).to_bytes
        (Message.mk ⟨0, 256, 1, 0, 0, 0⟩
          [⟨[101, 120, 97, 109, 112, 108, 101, 46, 99, 111, 109], .A, .IN⟩] [] [] []).to_bytes.length =
      .ok ⟨⟨0, 256, 1, 0, 0, 0⟩,
        [⟨[101, 120, 97, 109, 112, 108, 101, 46, 99, 111, 109, 46], .A, .IN⟩], [], [], []⟩ ∧
    ([101, 120, 97, 109, 112, 108, 101, 46, 99, 111, 109, 46] : List Nat) ≠
      [101, 120, 97, 109, 112, 108, 101, 46, 99, 111, 109] :=
  ⟨by decide, by decide, by decide⟩

/-- C1 witness: the amended round-trip at ("example.com", "A", "IN"), id 0. -/
theorem C1_witness :
    Message.create_query 0 [101, 120, 97, 109, 112, 108, 101, 46, 99, 111, 109]
        [65] [73, 78] =
      .ok (Message.mk ⟨0, 256, 1, 0, 0, 0⟩
        [⟨[101, 120, 97, 109, 112, 108, 101, 46, 99, 111, 109], .A, .IN⟩] [] [] []) ∧
    (∀ l ∈ splitDot (trimStr [101, 120, 97, 109, 112, 108, 101, 46, 99, 111, 109]),
      0 < l.length ∧ l.length ≤ 63 ∧ ∀ c ∈ l, c < 128) ∧
    (∃ i, Message.from_bytes
        (Message.mk ⟨0, 256, 1, 0, 0, 0⟩
          [⟨[101, 120, 97, 109, 112, 108, 101, 46, 99, 111, 109], .A, .IN⟩] [] [] []).to_bytes
        (Message.mk ⟨0, 256, 1, 0, 0, 0⟩
          [⟨[101, 120, 97, 109, 112, 108, 101, 46, 99, 111, 109], .A, .IN⟩] [] [] []).to_bytes.length =
      .ok { header := { (Message.mk ⟨0, 256, 1, 0, 0, 0⟩
              [⟨[101, 120, 97, 109, 112, 108, 101, 46, 99, 111, 109], .A, .IN⟩] [] [] []).header
              with id := i }
            question := (Message.mk ⟨0, 256, 1, 0, 0, 0⟩
              [⟨[101, 120, 97, 109, 112, 108, 101, 46, 99, 111, 109], .A, .IN⟩] [] [] []).question.map
              fun q => { q with qname := q.qname ++ [46] }
            answer := [], authority := [], additional := [] }) :=
  ⟨by decide, by decide,
   C1_roundtrip_with_trailing_dot 0 [101, 120, 97, 109, 112, 108, 101, 46, 99, 111, 109]
     [65] [73, 78]
     (Message.mk ⟨0, 256, 1, 0, 0, 0⟩
       [⟨[101, 120, 97, 109, 112, 108, 101, 46, 99, 111, 109], .A, .IN⟩] [] [] [])
     (by decide) (by decide)⟩

/-!
## Claim C5
-/

/-- Inversion for a successful monadic bind. -/
theorem Outcome.bind_eq_ok {α β : Type} {x : Outcome α} {f : α → Outcome β} {b : β}
    (h : Outcome.bind x f = .ok b) : ∃ a, x = .ok a ∧ f a = .ok b := by
  cases x with
  | ok a => exact ⟨a, rfl, h⟩
  | err e => simp [Outcome.bind] at h
  | panicked p => simp [Outcome.bind] at h
  | diverge => simp [Outcome.bind] at h
  | fuelOut => simp [Outcome.bind] at h

/-- C5 (amended): message decoding never returns a partial message —
every successfully decoded message has exactly as many questions,
answers, authority and additional records as its header counts claim.
(On an exhausted buffer the code aborts with a `bytes::Buf` panic
rather than a `TruncatedInput` error result; see the counterexample.) -/
theorem C5_no_partial_message (buf : List Nat) (len : Nat) (m : Message)
    (h : Message.from_bytes buf len = .ok m) :
    m.question.length = m.header.qdcount ∧
    m.answer.length = m.header.ancount ∧
    m.authority.length = m.header.nscount ∧
    m.additional.length = m.header.arcount := by
  rw [Message.from_bytes] at h
  split at h
  · simp only [Outcome.monad_bind_eq] at h
    obtain ⟨⟨hd, r1⟩, hh, h⟩ := Outcome.bind_eq_ok h
    obtain ⟨⟨qs, st1, r2⟩, h1, h⟩ := Outcome.bind_eq_ok h
    obtain ⟨⟨as_, st2, r3⟩, h2, h⟩ := Outcome.bind_eq_ok h
    obtain ⟨⟨auth, st3, r4⟩, h3, h⟩ := Outcome.bind_eq_ok h
    obtain ⟨⟨add, st4, r5⟩, h4, h⟩ := Outcome.bind_eq_ok h
    simp only [Outcome.ok.injEq] at h
    subst h
    exact ⟨decodeN_ok_length h1, decodeN_ok_length h2,
      decodeN_ok_length h3, decodeN_ok_length h4⟩
  · simp at h

/-- C5 counterexample: a header claiming ANCOUNT=2 over a buffer holding
one complete answer makes decoding abort with a buffer-underflow panic
(`bytes::Buf::get_u8` past the end), not a `TruncatedInput` error
result. -/
theorem C5_counterexample :
    Message.from_bytes
      [0, 0, 0, 0, 0, 0, 0, 2, 0, 0, 0, 0,
       3, 102, 111, 111, 0, 0, 1, 0, 1, 0, 0, 0, 0, 0, 4, 1, 2, 3, 4] 31 =
      .panicked .underflow := by decide

/-- C5 witness: a well-formed header with all counts zero decodes to a
message whose section lengths match its counts. -/
theorem C5_witness :
    Message.from_bytes [0, 0, 0, 0, 0, 0, 0, 0, 0, 0, 0, 0] 12 =
      .ok (Message.mk ⟨0, 0, 0, 0, 0, 0⟩ [] [] [] []) ∧
    ((Message.mk ⟨0, 0, 0, 0, 0, 0⟩ [] [] [] []).question.length =
        (Message.mk ⟨0, 0, 0, 0, 0, 0⟩ [] [] [] []).header.qdcount ∧
      (Message.mk ⟨0, 0, 0, 0, 0, 0⟩ [] [] [] []).answer.length =
        (Message.mk ⟨0, 0, 0, 0, 0, 0⟩ [] [] [] []).header.ancount ∧
      (Message.mk ⟨0, 0, 0, 0, 0, 0⟩ [] [] [] []).authority.length =
        (Message.mk ⟨0, 0, 0, 0, 0, 0⟩ [] [] [] []).header.nscount ∧
      (Message.mk ⟨0, 0, 0, 0, 0, 0⟩ [] [] [] []).additional.length =
        (Message.mk ⟨0, 0, 0, 0, 0, 0⟩ [] [] [] []).header.arcount) :=
  ⟨by decide, C5_no_partial_message [0, 0, 0, 0, 0, 0, 0, 0, 0, 0, 0, 0] 12
    (Message.mk ⟨0, 0, 0, 0, 0, 0⟩ [] [] [] []) (by decide)⟩

/-!
## Claim C6
-/

/-- C6 (amended): an A record's RDATA decoding consumes exactly
RDLENGTH bytes and succeeds precisely when RDLENGTH is 4 (likewise 16
for AAAA), and the bytes [93,184,216,34] produce the IPv4 variant; but
the failure on any other RDLENGTH is an `assert_eq!` panic, not a
`MalformedRecord` error result. -/
theorem C6_a_record_rdlength :
    (∀ (v tail : List Nat) (st : LState) (len : Nat),
      Answer.rdata_from_bytes .A v.length (v ++ tail) len st =
        if v.length = 4 then .ok (.ipv4 v, st, tail) else .panicked .assertA) ∧
    (∀ (v tail : List Nat) (st : LState) (len : Nat),
      Answer.rdata_from_bytes .AAAA v.length (v ++ tail) len st =
        if v.length = 16 then .ok (.ipv6 v, st, tail) else .panicked .assertAAAA) ∧
    Answer.from_bytes
        [3, 102, 111, 111, 0, 0, 1, 0, 1, 0, 0, 0, 0, 0, 4, 93, 184, 216, 34] 19 ⟨[], []⟩ =
      .ok (⟨[102, 111, 111, 46], .A, .IN, 0, 4, .ipv4 [93, 184, 216, 34]⟩,
        ⟨[⟨[102, 111, 111], none⟩], [(0, 0)]⟩, []) := by
  refine ⟨?_, ?_, by decide⟩
  · intro v tail st len
    simp only [Answer.rdata_from_bytes, readBytes_append]
  · intro v tail st len
    simp only [Answer.rdata_from_bytes, readBytes_append]

/-- C6 counterexample: an A record with RDLENGTH=3 aborts with the
`assert_eq!` panic "Invalid A record length", not a `MalformedRecord`
error result. -/
theorem C6_counterexample :
    Answer.from_bytes
        [3, 102, 111, 111, 0, 0, 1, 0, 1, 0, 0, 0, 0, 0, 3, 9, 9, 9] 18 ⟨[], []⟩ =
      .panicked .assertA := by decide

/-!
## Claim C7
-/

/-- C7 (amended): `read_label` has no `InvalidLabelFlag` path — a
label-length byte whose top two bits are the reserved patterns 01 or 10
is treated exactly like the literal label length given by its low six
bits (the loop behaves identically after masking the byte with 0x3F);
it is not rejected. -/
theorem C7_reserved_bits_treated_as_length :
    ∀ (fuel octet : Nat) (rest : List Nat) (index : Nat) (st : LState)
      (head prev : Option Nat),
      octet &&& 0xC0 ≠ 0xC0 →
      readLabelLoop (fuel + 1) (octet :: rest) index st head prev =
        readLabelLoop (fuel + 1) ((octet &&& 0x3F) :: rest) index st head prev := by
  intro fuel octet rest index st head prev hflag
  have h63 : octet &&& 0x3F ≤ 63 := Nat.and_le_right
  have hflag2 : ¬((octet &&& 0x3F) &&& 0xC0 = 0xC0) := by
    rw [land192_of_le63 h63]
    omega
  have hlen2 : (octet &&& 0x3F) &&& 0x3F = octet &&& 0x3F := land63_of_le63 h63
  simp only [readLabelLoop]
  rw [if_neg hflag, if_neg hflag2, hlen2]

/-- C7 counterexample: the byte 0x41 (top bits 01) is decoded as a
literal label of length 1 — `read_label` succeeds with the name "a."
instead of failing with an `InvalidLabelFlag` error. -/
theorem C7_counterexample :
    read_label [65, 97, 0] 0 ⟨[], []⟩ =
      .ok ([97, 46], ⟨[⟨[97], none⟩], [(0, 0)]⟩, []) := by decide

/-- C7 witness: byte 0x41 behaves like its low six bits, 0x01. -/
theorem C7_witness :
    ((65 : Nat) &&& 0xC0 ≠ 0xC0) ∧
    readLabelLoop 3 [65, 97, 0] 0 ⟨[], []⟩ none none =
      readLabelLoop 3 [65 &&& 0x3F, 97, 0] 0 ⟨[], []⟩ none none :=
  ⟨by decide,
   C7_reserved_bits_treated_as_length 2 65 [97, 0] 0 ⟨[], []⟩ none none (by decide)⟩

/-!
## Claim C8
-/

theorem splitDot_no_dot {l : List Nat} (h : ∀ c ∈ l, c ≠ 46) : splitDot l = [l] := by
  induction l with
  | nil => rfl
  | cons c rest ih =>
    simp only [splitDot]
    rw [if_neg (h c (by simp))]
    rw [ih (fun x hx => h x (by simp [hx]))]

theorem dotJoined_singleton (l : List Nat) : dotJoined [l] = l ++ [46] := by
  simp [dotJoined]

/-- C8 (amended): `Question::to_bytes` performs no length validation and
never fails.  A dot-free ASCII label of length 1–63 (in particular 63)
encodes and decodes back (with the trailing-dot convention); a 64-byte
label also encodes without any `LabelTooLong` error — its length byte
64 = 0x40 — but that encoding then fails to decode (0x40's low six bits
are 0, which reads as the name terminator, leaving no label at all). -/
theorem C8_no_length_validation :
    (∀ (l : List Nat) (T : QType) (C : QClass) (len : Nat),
      0 < l.length → l.length ≤ 63 → (∀ c ∈ l, c < 128) → (∀ c ∈ l, c ≠ 46) →
      ∃ ns', Question.from_bytes (Question.to_bytes ⟨l, T, C⟩) len ⟨[], []⟩ =
        .ok (⟨l ++ [46], T, C⟩, ⟨chainP [l], ns'⟩, [])) ∧
    Question.from_bytes (Question.to_bytes ⟨List.replicate 64 97, .A, .IN⟩) 71 ⟨[], []⟩ =
      .err (.labelErr .noHead) := by
  constructor
  · intro l T C len h0 h63 hascii hnodot
    have hsplit : splitDot l = [l] := splitDot_no_dot hnodot
    have hqb := question_to_bytes_ascii ⟨l, T, C⟩ (by
      intro l' hl'
      rw [show (Question.mk l T C).qname = l from rfl, hsplit] at hl'
      simp at hl'
      subst hl'
      exact ⟨h63, hascii⟩)
    rw [show (Question.mk l T C).qname = l from rfl, hsplit] at hqb
    obtain ⟨ns', hq⟩ := question_from_bytes_enc [l]
      (by intro x hx; simp at hx; subst hx; exact ⟨h0, h63⟩) (by simp) T C len
    refine ⟨ns', ?_⟩
    rw [hqb]
    rw [show encLabels [l] ++ [0] ++ write_u16 T.toU16 ++ write_u16 C.toU16 =
      encLabels [l] ++ 0 :: (write_u16 T.toU16 ++ write_u16 C.toU16) by simp]
    rw [hq, dotJoined_singleton]
  · decide

set_option maxRecDepth 4000 in
/-- C8 counterexample: a 64-byte label and even a 300-byte label encode
without error — there is no `LabelTooLong` or `NameTooLong` check; the
length byte is written as the label length modulo 256 (64 and 44). -/
theorem C8_counterexample :
    Question.to_bytes ⟨List.replicate 64 97, .A, .IN⟩ =
      64 :: (List.replicate 64 97 ++ [0, 0, 1, 0, 1]) ∧
    Question.to_bytes ⟨List.replicate 300 97, .A, .IN⟩ =
      44 :: (List.replicate 300 97 ++ [0, 0, 1, 0, 1]) :=
  ⟨by decide, by decide⟩

/-- C8 witness: the boundary 63-byte label round-trips. -/
theorem C8_witness :
    (0 < (List.replicate 63 97).length ∧ (List.replicate 63 97).length ≤ 63 ∧
      (∀ c ∈ List.replicate 63 97, c < 128) ∧ (∀ c ∈ List.replicate 63 97, c ≠ 46)) ∧
    (∃ ns', Question.from_bytes
        (Question.to_bytes ⟨List.replicate 63 97, .A, .IN⟩) 100 ⟨[], []⟩ =
      .ok (⟨List.replicate 63 97 ++ [46], .A, .IN⟩,
        ⟨chainP [List.replicate 63 97], ns'⟩, [])) :=
  ⟨⟨by decide, by decide, by decide, by decide⟩,
   C8_no_length_validation.1 (List.replicate 63 97) .A .IN 100
     (by decide) (by decide) (by decide) (by decide)⟩

/-!
## Claim C9
-/

/-- C9 (amended): for the fixed-size variants A and AAAA, RDATA
decoding consumes exactly RDLENGTH bytes on success; the variable-length
variants ignore RDLENGTH entirely (see the counterexample, where a TXT
record with RDLENGTH=10 succeeds after consuming only 4 bytes). -/
theorem C9_fixed_size_consumes_rdlength :
    ∀ (rtype : QType), rtype = .A ∨ rtype = .AAAA →
      ∀ (rdlength len : Nat) (buf : List Nat) (st : LState) (r : RDATA)
        (st' : LState) (rest : List Nat),
        Answer.rdata_from_bytes rtype rdlength buf len st = .ok (r, st', rest) →
        buf.length = rdlength + rest.length := by
  intro rtype hAB rdlength len buf st r st' rest h
  rcases hAB with rfl | rfl
  · simp only [Answer.rdata_from_bytes] at h
    cases hrb : readBytes rdlength buf with
    | none => rw [hrb] at h; simp at h
    | some p =>
      obtain ⟨v, r2⟩ := p
      rw [hrb] at h
      simp only at h
      split at h
      · simp only [Outcome.ok.injEq, Prod.mk.injEq] at h
        obtain ⟨-, -, h3⟩ := h
        subst h3
        have := (readBytes_some_length hrb).2
        omega
      · simp at h
  · simp only [Answer.rdata_from_bytes] at h
    cases hrb : readBytes rdlength buf with
    | none => rw [hrb] at h; simp at h
    | some p =>
      obtain ⟨v, r2⟩ := p
      rw [hrb] at h
      simp only at h
      split at h
      · simp only [Outcome.ok.injEq, Prod.mk.injEq] at h
        obtain ⟨-, -, h3⟩ := h
        subst h3
        have := (readBytes_some_length hrb).2
        omega
      · simp at h

/-- C9 counterexample: a TXT record with RDLENGTH=10 decodes
successfully while consuming only 4 RDATA bytes (the embedded length
byte 3 plus "abc"), leaving [55] unread — the bytes consumed do not
equal the record's rdlength field, at the RDATA level and for the full
record. -/
theorem C9_counterexample :
    Answer.rdata_from_bytes .TXT 10 [3, 97, 98, 99, 55] 20 ⟨[], []⟩ =
      .ok (.txt [97, 98, 99], ⟨[], []⟩, [55]) ∧
    ([3, 97, 98, 99, 55] : List Nat).length ≠ 10 + ([55] : List Nat).length ∧
    Answer.from_bytes
        [3, 102, 111, 111, 0, 0, 16, 0, 1, 0, 0, 0, 0, 0, 10, 3, 97, 98, 99, 55] 20 ⟨[], []⟩ =
      .ok (⟨[102, 111, 111, 46], .TXT, .IN, 0, 10, .txt [97, 98, 99]⟩,
        ⟨[⟨[102, 111, 111], none⟩], [(0, 0)]⟩, [55]) :=
  ⟨by decide, by decide, by decide⟩

/-- C9 witness: an A record with RDLENGTH=4 consumes exactly 4 bytes. -/
theorem C9_witness :
    ((QType.A = QType.A ∨ QType.A = QType.AAAA) ∧
      Answer.rdata_from_bytes .A 4 [93, 184, 216, 34] 19 ⟨[], []⟩ =
        .ok (.ipv4 [93, 184, 216, 34], ⟨[], []⟩, [])) ∧
    ([93, 184, 216, 34] : List Nat).length = 4 + ([] : List Nat).length :=
  ⟨⟨Or.inl rfl, by decide⟩,
   C9_fixed_size_consumes_rdlength .A (Or.inl rfl) 4 19 [93, 184, 216, 34] ⟨[], []⟩
     (.ipv4 [93, 184, 216, 34]) ⟨[], []⟩ [] (by decide)⟩

/-!
## Claim C10
-/

theorem maskHdr_bind {α : Type} (x : Outcome α) (f : α → Outcome Message) :
    maskHdr (Outcome.bind x f) = Outcome.bind x (fun a => maskHdr (f a)) := by
  cases x <;> rfl

set_option maxRecDepth 8000 in
/-- C10: header decoding on at least 12 bytes always succeeds and
returns the six big-endian u16 fields verbatim — no flag combination,
opcode, RCODE or id is rejected; and message decoding is insensitive to
the id and flag bytes (masking id and flags, decoding buffers that
differ only in those four bytes gives identical results), so the
response id is never compared with the query id and the QR bit is never
checked. -/
theorem C10_header_never_validated :
    (∀ (b0 b1 b2 b3 b4 b5 b6 b7 b8 b9 b10 b11 : Nat) (rest : List Nat),
      Header.from_bytes
          (b0 :: b1 :: b2 :: b3 :: b4 :: b5 :: b6 :: b7 :: b8 :: b9 :: b10 :: b11 :: rest) =
        .ok (⟨b0 * 256 + b1, b2 * 256 + b3, b4 * 256 + b5, b6 * 256 + b7,
          b8 * 256 + b9, b10 * 256 + b11⟩, rest)) ∧
    (∀ (i1 i2 f1 f2 i1' i2' f1' f2' : Nat) (rest : List Nat),
      maskHdr (Message.from_bytes (i1 :: i2 :: f1 :: f2 :: rest) (4 + rest.length)) =
        maskHdr (Message.from_bytes (i1' :: i2' :: f1' :: f2' :: rest) (4 + rest.length))) := by
  constructor
  · intro b0 b1 b2 b3 b4 b5 b6 b7 b8 b9 b10 b11 rest
    rfl
  · intro i1 i2 f1 f2 i1' i2' f1' f2' rest
    rw [Message.from_bytes, Message.from_bytes]
    rw [if_pos (by simp only [List.length_cons]; omega),
      if_pos (by simp only [List.length_cons]; omega)]
    have htake : ∀ a b c d : Nat, (a :: b :: c :: d :: rest).take (4 + rest.length) =
        a :: b :: c :: d :: rest := by
      intro a b c d
      have hl : (a :: b :: c :: d :: rest).length = 4 + rest.length := by
        simp
        omega
      rw [← hl, List.take_length]
    rw [htake, htake]
    rcases rest with - | ⟨c0, - | ⟨c1, - | ⟨c2, - | ⟨c3, - | ⟨c4, - | ⟨c5,
      - | ⟨c6, - | ⟨c7, rest'⟩⟩⟩⟩⟩⟩⟩⟩
    · rfl
    · rfl
    · rfl
    · rfl
    · rfl
    · rfl
    · rfl
    · rfl
    · simp only [Header.from_bytes, get_u16, Outcome.monad_bind_eq, Outcome.bind_ok,
        maskHdr_bind]
      rfl

end DnsClient
